import Mathlib

/-!
# Verification of the YukkiMusic thumbnail generation-and-cache pipeline

Shallow embedding of `internal/utils/gen_thumb.go`: the `ProcessThumbnail`
orchestrator, `downloadImage`, `loadFont`, `addOverlay`, `wrapText` and
`FormatDurationForThumbnail`, together with theorems settling the frozen
claims about this code.

Modelling conventions:
- Machine integers of the Go code are `Nat`/`Int` (all arithmetic in the
  relevant functions stays far below overflow ranges).
- `float64` quantities (widths measured by `gg.MeasureString`, the gradient
  arithmetic) are modelled as exact rationals `ℚ`; the constants involved
  (`0.25`, `0.9`, `180`) and the loop counters are exactly representable,
  so the branch structure agrees with the float code for all realistic sizes.
- Effectful operations (HTTP GET, `os.Stat`, font parsing, file writes) are
  abstracted as function-valued fields of an `Env` record; `ProcessThumbnail`
  returns, besides the Go results `(path, error)`, an explicit record of the
  side effects it performed (downloads issued, cache writes, save attempts).
-/

namespace YukkiThumb

/-! ## String helpers shared by several Go functions -/

/-- One step list of characters → decimal digits, fuel-bounded so the kernel
can evaluate it.  Models the digit emission of Go `fmt.Sprintf("%d", n)`:
digits are produced from the least significant side and consed in front of
the accumulator.  `fuel = n` always suffices since `n` has at most `n`
digits for `n ≥ 1`. -/
def toDecAux : Nat → Nat → List Char → List Char
  | 0, _, acc => acc
  | fuel + 1, n, acc =>
    if n = 0 then acc
    else toDecAux fuel (n / 10) (Char.ofNat (48 + n % 10) :: acc)

/-- Decimal rendering of a natural number, as Go `%d` prints it. -/
def toDec (n : Nat) : String :=
  if n = 0 then "0" else ⟨toDecAux n n []⟩

/-- Go `fmt.Sprintf("%02d", n)` for `n ≥ 0`: left-pad to width two with a zero. -/
def pad2 (n : Nat) : String :=
  if n < 10 then "0" ++ toDec n else toDec n

/-- Number of `':'` characters in a string. -/
def colonCount (s : String) : Nat := s.data.count ':'

/-- Helper for Go `strings.Fields`: scan the characters, grouping maximal runs of
non-whitespace; `acc` holds the current run reversed. -/
def fieldsAux : List Char → List Char → List (List Char)
  | [], acc => if acc.isEmpty then [] else [acc.reverse]
  | c :: cs, acc =>
    if c.isWhitespace then
      if acc.isEmpty then fieldsAux cs [] else acc.reverse :: fieldsAux cs []
    else fieldsAux cs (c :: acc)

/-- Go `strings.Fields`: split around runs of whitespace, dropping empties. -/
def fields (s : String) : List String :=
  (fieldsAux s.data []).map fun l => ⟨l⟩

/-- Go `strings.Join(ws, sep)`. -/
def joinWith (sep : String) : List String → String
  | [] => ""
  | [w] => w
  | w :: ws => w ++ sep ++ joinWith sep ws

/-- The cache key of `ProcessThumbnail`:
`fmt.Sprintf("%s:%s:%s", thumbnailURL, title, duration)`. -/
def cacheKey (thumbnailURL title duration : String) : String :=
  thumbnailURL ++ ":" ++ title ++ ":" ++ duration

/-! ## `FormatDurationForThumbnail` -/

/-- Model of `FormatDurationForThumbnail` from `gen_thumb.go`: seconds to
`HH:MM:SS` / `MM:SS`.  The argument is a Go `int`, modelled as `Int`;
after the `seconds <= 0` guard all divisions act on positive numbers,
where Go's truncated division coincides with `Nat` division. -/
def FormatDurationForThumbnail (seconds : Int) : String :=
  if seconds ≤ 0 then "00:00"
  else
    let s := seconds.toNat
    let hours := s / 3600
    let minutes := s % 3600 / 60
    let secs := s % 60
    if 0 < hours then pad2 hours ++ ":" ++ pad2 minutes ++ ":" ++ pad2 secs
    else pad2 minutes ++ ":" ++ pad2 secs

/-! ## Image data model -/

/-- Width and height of a bitmap, as read off `img.Bounds()`. -/
structure Dims where
  width : Nat
  height : Nat
deriving DecidableEq, Repr

/-- An RGBA colour, as Go `color.RGBA{r, g, b, a}`. -/
structure RGBA where
  r : Nat
  g : Nat
  b : Nat
  a : Nat
deriving DecidableEq, Repr

/-- Structure `ThumbnailConfig` from `gen_thumb.go`. -/
structure ThumbnailConfig where
  AddOverlay : Bool
  OverlayText : String := ""
  TitleText : String := ""
  DurationText : String := ""
  BackgroundColor : RGBA
  TextColor : RGBA
  Width : Nat
  Height : Nat
  Quality : Nat
deriving DecidableEq, Repr

/-- Function `DefaultThumbnailConfig` from `gen_thumb.go`; `overlay` stands for the
read of `config.ThumbnailOverlay`. -/
def DefaultThumbnailConfig (overlay : Bool) : ThumbnailConfig where
  AddOverlay := overlay
  BackgroundColor := ⟨0, 0, 0, 180⟩
  TextColor := ⟨255, 255, 255, 255⟩
  Width := 1280
  Height := 720
  Quality := 85

/-- Dimension semantics of `resize.Resize(w, h, img, resize.Lanczos3)` from
`github.com/nfnt/resize`: with one target dimension zero the other is derived
from the source aspect ratio; with both nonzero (as at the call site in
`addOverlay`, which passes `cfg.Width, cfg.Height`) the output has exactly
the requested dimensions. -/
def resizeResize (tw th : Nat) (d : Dims) : Dims :=
  if tw = 0 ∧ th = 0 then d
  else if tw = 0 then ⟨d.width * th / d.height, th⟩
  else if th = 0 then ⟨tw, d.height * tw / d.width⟩
  else ⟨tw, th⟩

/-- The resize step at the top of `addOverlay`:
`if width > cfg.Width || height > cfg.Height { img = resize.Resize(cfg.Width, cfg.Height, img, resize.Lanczos3) }`. -/
def resizeStep (cfgW cfgH : Nat) (d : Dims) : Dims :=
  if cfgW < d.width ∨ cfgH < d.height then resizeResize cfgW cfgH d else d

/-! ## Gradient overlay -/

/-- Go computes `gradientHeight := float64(height) * 0.25` — exact in `ℚ`
(and exact in `float64` as well, `0.25` being a power of two). -/
def gradientHeight (h : Nat) : ℚ := (h : ℚ) / 4

/-- The row indices the gradient loop runs over:
`for i := 0.0; i < gradientHeight; i++`, i.e. all naturals below
`gradientHeight`.  `List.range h` is a superset of those since
`gradientHeight h ≤ h`. -/
def gradientRows (h : Nat) : List Nat :=
  (List.range h).filter fun i => decide ((i : ℚ) < gradientHeight h)

/-- Floor of the base-2 logarithm, with explicit fuel so that the kernel can
evaluate it; `fuel = n` always suffices since the argument at least halves
each step. -/
def log2f : Nat → Nat → Nat
  | 0, _ => 0
  | fuel + 1, n => if n ≤ 1 then 0 else log2f fuel (n / 2) + 1

/-- Floor of the base-2 logarithm of a positive natural (0 at 0). -/
def ilog2 (n : Nat) : Nat := log2f n n

/-- Round half to even: the integer nearest to the nonnegative rational
`a / b`, ties going to the even neighbour — the IEEE-754 binary64 default
rounding, expressed on a scaled significand. -/
def rhe (a b : Nat) : Nat :=
  if 2 * (a % b) < b then a / b
  else if b < 2 * (a % b) then a / b + 1
  else if (a / b) % 2 = 0 then a / b else a / b + 1

/-- Exponent bookkeeping for the binary64 quotient
`i / gradientHeight = (4*i) / h`:  `gradQuotExp h i - 60` is the floor of
`log2 (4*i/h)`.  The quotient is scaled by `2^60` first so the floor
logarithm is computed on a natural number; this is exact whenever
`4*i/h ≥ 2^(-60)`, which holds for every drawn row (`i ≥ 1`) of every
realistic height. -/
def gradQuotExp (h i : Nat) : Nat := ilog2 (4 * i * 2 ^ 60 / h)

/-- The 53-bit significand of the correctly rounded binary64 quotient
`(4*i) / h`: the rounded quotient is `gradQuotSig h i * 2^(gradQuotExp h i - 112)`. -/
def gradQuotSig (h i : Nat) : Nat := rhe (4 * i * 2 ^ (112 - gradQuotExp h i)) h

/-- Number of low bits rounded away when the exact significand product
`180 * gradQuotSig h i` (the multiplication by the exactly representable
constant 180) is squeezed back into 53 bits; zero (no rounding) when the
product already fits. -/
def gradProdShift (h i : Nat) : Nat := ilog2 (180 * gradQuotSig h i) - 52

/-- The 53-bit significand of the correctly rounded binary64 product of the
rounded quotient with 180. -/
def gradProdSig (h i : Nat) : Nat :=
  rhe (180 * gradQuotSig h i) (2 ^ gradProdShift h i)

/-- Go computes `alpha := uint8((i / gradientHeight) * 180)` in `float64`
arithmetic: the quotient is correctly rounded to binary64, its product with
the exact constant 180 is correctly rounded again, and the `uint8`
conversion truncates toward zero.  Modelled exactly over naturals: the loop
counter `i` and `gradientHeight = h/4 = float64(h)*0.25` are exact in
binary64, both roundings are round-to-nearest-ties-to-even on 53-bit
significands (`rhe`), and the final truncation is division by the remaining
power of two.  (The double rounding makes the result differ from the exact
`⌊720*i/h⌋` by one unit at some rows, e.g. `gradAlpha 720 13 = 12`.) -/
def gradAlpha (h i : Nat) : Nat :=
  if i = 0 then 0
  else gradProdSig h i / 2 ^ (112 - gradQuotExp h i - gradProdShift h i)

/-- The y coordinate of gradient row `i`:
`dc.DrawRectangle(0, float64(height)-gradientHeight+i, float64(width), 1)`. -/
def gradRowY (h i : Nat) : ℚ :=
  (h : ℚ) - gradientHeight h + (i : ℚ)

/-- Bridge from the rational loop bound to naturals: row `i` is drawn
exactly when `4 * i < h`. -/
lemma gradientRows_mem_iff (h i : Nat) :
    ((i : ℚ) < gradientHeight h) ↔ 4 * i < h := by
  unfold gradientHeight
  rw [lt_div_iff₀ (by norm_num : (0 : ℚ) < 4), mul_comm]
  norm_cast

lemma range_filter_lt (m n : Nat) (hmn : m ≤ n) :
    (List.range n).filter (fun i => decide (i < m)) = List.range m := by
  induction n with
  | zero => simp [Nat.le_zero.mp hmn]
  | succ n ih =>
    rcases Nat.lt_or_ge m (n + 1) with hm | hm
    · rw [List.range_succ, List.filter_append, ih (by omega)]
      simp [show ¬ n < m by omega]
    · have hm2 : m = n + 1 := by omega
      subst hm2
      apply List.filter_eq_self.mpr
      intro a ha
      simp only [List.mem_range] at ha
      simpa using ha

/-- The gradient loop draws exactly the rows `0, …, ⌈h/4⌉ - 1`. -/
lemma gradientRows_eq (h : Nat) : gradientRows h = List.range ((h + 3) / 4) := by
  unfold gradientRows
  have hcong : ∀ i ∈ List.range h,
      decide ((i : ℚ) < gradientHeight h) = decide (i < (h + 3) / 4) := by
    intro i _
    simp only [decide_eq_decide]
    rw [gradientRows_mem_iff]
    omega
  rw [List.filter_congr hcong, range_filter_lt _ _ (by omega)]

/-- Specification of `log2f`: with enough fuel it brackets its argument
between consecutive powers of two. -/
lemma log2f_spec : ∀ (fuel n : Nat), 1 ≤ n → n ≤ fuel →
    2 ^ log2f fuel n ≤ n ∧ n < 2 ^ (log2f fuel n + 1) := by
  intro fuel
  induction fuel with
  | zero => intro n h1 h2; omega
  | succ fuel ih =>
    intro n h1 h2
    unfold log2f
    by_cases hn : n ≤ 1
    · rw [if_pos hn]
      constructor
      · simpa using h1
      · simpa using by omega
    · rw [if_neg hn]
      have hrec := ih (n / 2) (by omega) (by omega)
      rw [pow_succ, pow_succ]
      rcases hrec with ⟨hlo, hhi⟩
      omega

/-- Specification of `ilog2` on positive arguments. -/
lemma ilog2_spec (n : Nat) (h1 : 1 ≤ n) :
    2 ^ ilog2 n ≤ n ∧ n < 2 ^ (ilog2 n + 1) :=
  log2f_spec n n h1 le_rfl

/-- Round-half-even is within half of the true quotient:
`|rhe a b - a/b| ≤ 1/2`, stated in the scaled integer form
`|2 * rhe a b * b - 2 * a| ≤ b`. -/
lemma rhe_halfulp (a b : Nat) (hb : 0 < b) :
    2 * a ≤ 2 * rhe a b * b + b ∧ 2 * rhe a b * b ≤ 2 * a + b := by
  have hdm : b * (a / b) + a % b = a := Nat.div_add_mod a b
  have hr : a % b < b := Nat.mod_lt _ hb
  have hq1 : (a / b + 1) * b = b * (a / b) + b := by ring
  have hq0 : a / b * b = b * (a / b) := by ring
  unfold rhe
  by_cases h1 : 2 * (a % b) < b
  · rw [if_pos h1, mul_assoc, hq0]
    omega
  · rw [if_neg h1]
    by_cases h2 : b < 2 * (a % b)
    · rw [if_pos h2, mul_assoc, hq1]
      omega
    · rw [if_neg h2]
      by_cases h3 : (a / b) % 2 = 0
      · rw [if_pos h3, mul_assoc, hq0]
        omega
      · rw [if_neg h3, mul_assoc, hq1]
        omega

/-- Accuracy of the two-step rounded evaluation of `(a/h) * 180`: given the
bracketing facts for the quotient exponent, the half-ulp bounds for both
roundings and the bracketing of the product significand's exponent, the
final truncated value is strictly below 180 and within one unit of the
exact `⌊180 * a / h⌋`.  Stated over the generic components so that
`gradAlpha_bounds` can instantiate it with the definitions. -/
lemma float_pipeline_bounds (h a S n1 T n2 : Nat)
    (hh0 : 0 < h) (hah : a < h) (hh : h ≤ 2 ^ 40)
    (hstar : 2 ^ S * h ≤ a * 2 ^ 60 ∧ a * 2 ^ 60 < 2 ^ (S + 1) * h)
    (hS59 : S ≤ 59)
    (hn1 : 2 * (a * 2 ^ (112 - S)) ≤ 2 * n1 * h + h ∧
           2 * n1 * h ≤ 2 * (a * 2 ^ (112 - S)) + h)
    (hT : 2 ^ T ≤ 180 * n1 ∧ 180 * n1 < 2 ^ (T + 1))
    (hn2 : 2 * (180 * n1) ≤ 2 * n2 * 2 ^ (T - 52) + 2 ^ (T - 52) ∧
           2 * n2 * 2 ^ (T - 52) ≤ 2 * (180 * n1) + 2 ^ (T - 52)) :
    n2 / 2 ^ (112 - S - (T - 52)) < 180 ∧
    180 * a / h - 1 ≤ n2 / 2 ^ (112 - S - (T - 52)) ∧
    n2 / 2 ^ (112 - S - (T - 52)) ≤ 180 * a / h + 1 := by
  -- abbreviations
  have hWS : 2 ^ (112 - S) * 2 ^ S = 2 ^ 112 := by
    rw [← pow_add]
    congr 1
    omega
  set W := 2 ^ (112 - S) with hW
  -- scaled significand bounds for the first rounding
  have haW_lo : 2 ^ 52 * h ≤ a * W := by
    have h1 : 2 ^ S * (2 ^ 52 * h) ≤ 2 ^ S * (a * W) := by
      have h2 : 2 ^ (S + 52) * h ≤ a * 2 ^ 112 := by
        calc 2 ^ (S + 52) * h = (2 ^ S * h) * 2 ^ 52 := by ring
        _ ≤ (a * 2 ^ 60) * 2 ^ 52 := Nat.mul_le_mul_right _ hstar.1
        _ = a * 2 ^ 112 := by ring_nf
      calc 2 ^ S * (2 ^ 52 * h) = 2 ^ (S + 52) * h := by ring_nf
      _ ≤ a * 2 ^ 112 := h2
      _ = a * (W * 2 ^ S) := by rw [hWS]
      _ = 2 ^ S * (a * W) := by ring
    exact Nat.le_of_mul_le_mul_left h1 (Nat.pos_pow_of_pos _ (by norm_num))
  have haW_hi : a * W < 2 ^ 53 * h := by
    have h1 : 2 ^ S * (a * W) < 2 ^ S * (2 ^ 53 * h) := by
      calc 2 ^ S * (a * W) = a * (W * 2 ^ S) := by ring
      _ = a * 2 ^ 112 := by rw [hWS]
      _ = (a * 2 ^ 60) * 2 ^ 52 := by ring_nf
      _ < (2 ^ (S + 1) * h) * 2 ^ 52 :=
          mul_lt_mul_of_pos_right hstar.2 (Nat.pos_pow_of_pos _ (by norm_num))
      _ = 2 ^ S * (2 ^ 53 * h) := by ring_nf
    exact Nat.lt_of_mul_lt_mul_left h1
  have hWpos : 0 < W := Nat.pos_pow_of_pos _ (by norm_num)
  have hW53 : (2 : Nat) ^ 53 ≤ W := by
    rw [hW]
    exact Nat.pow_le_pow_right (by norm_num) (by omega)
  -- significand range of the first rounding
  have hn1_lo : 2 ^ 52 ≤ n1 := by
    have h1 : 2 ^ 53 * h ≤ (2 * n1 + 1) * h := by
      calc 2 ^ 53 * h = 2 * (2 ^ 52 * h) := by ring
      _ ≤ 2 * (a * W) := Nat.mul_le_mul_left 2 haW_lo
      _ ≤ 2 * n1 * h + h := hn1.1
      _ = (2 * n1 + 1) * h := by ring
    have h2 : 2 ^ 53 ≤ 2 * n1 + 1 := Nat.le_of_mul_le_mul_right h1 hh0
    omega
  have hn1_hi : n1 ≤ 2 ^ 53 := by
    have h1 : 2 * n1 * h ≤ (2 ^ 54 + 1) * h := by
      calc 2 * n1 * h ≤ 2 * (a * W) + h := hn1.2
      _ ≤ 2 * (2 ^ 53 * h) + h := Nat.add_le_add_right (Nat.mul_le_mul_left 2 haW_hi.le) h
      _ = (2 ^ 54 + 1) * h := by ring
    have h2 : 2 * n1 ≤ 2 ^ 54 + 1 := Nat.le_of_mul_le_mul_right (by
      calc 2 * n1 * h ≤ (2 ^ 54 + 1) * h := h1) hh0
    omega
  -- the product significand and its exponent
  have hm_lo : (2 : Nat) ^ 59 ≤ 180 * n1 := by
    calc (2 : Nat) ^ 59 = 128 * 2 ^ 52 := by norm_num
    _ ≤ 180 * n1 := Nat.mul_le_mul (by norm_num) hn1_lo
  have hm_hi : 180 * n1 < 2 ^ 61 := by
    calc 180 * n1 ≤ 180 * 2 ^ 53 := Nat.mul_le_mul_left 180 hn1_hi
    _ < 2 ^ 61 := by norm_num
  have hT59 : 59 ≤ T ∧ T ≤ 60 := by
    constructor
    · by_contra hc
      push_neg at hc
      have h2 : (2 : Nat) ^ (T + 1) ≤ 2 ^ 59 := Nat.pow_le_pow_right (by norm_num) (by omega)
      have := hT.2
      omega
    · by_contra hc
      push_neg at hc
      have h2 : (2 : Nat) ^ 61 ≤ 2 ^ T := Nat.pow_le_pow_right (by norm_num) (by omega)
      have := hT.1
      omega
  set t := T - 52 with ht
  have ht78 : 7 ≤ t ∧ t ≤ 8 := by omega
  have ht256 : (2 : Nat) ^ t ≤ 256 := by
    calc (2 : Nat) ^ t ≤ 2 ^ 8 := Nat.pow_le_pow_right (by norm_num) ht78.2
    _ = 256 := by norm_num
  set u := 112 - S - t with hu
  have hWut : 2 ^ u * 2 ^ t = W := by
    rw [← pow_add, hu, hW]
    congr 1
    omega
  have hupos : 0 < (2 : Nat) ^ u := Nat.pos_pow_of_pos _ (by norm_num)
  -- K1: the doubly scaled output against the exact product
  have K1 : 2 * n2 * 2 ^ t * h ≤ 360 * (a * W) + 180 * h + 2 ^ t * h := by
    calc 2 * n2 * 2 ^ t * h ≤ (2 * (180 * n1) + 2 ^ t) * h :=
        Nat.mul_le_mul_right h hn2.2
    _ = 180 * (2 * n1 * h) + 2 ^ t * h := by ring
    _ ≤ 180 * (2 * (a * W) + h) + 2 ^ t * h :=
        Nat.add_le_add_right (Nat.mul_le_mul_left 180 hn1.2) _
    _ = 360 * (a * W) + 180 * h + 2 ^ t * h := by ring
  have K1lo : 360 * (n1 * h) ≤ 2 * n2 * 2 ^ t * h + 2 ^ t * h := by
    calc 360 * (n1 * h) = 2 * (180 * n1) * h := by ring
    _ ≤ (2 * n2 * 2 ^ t + 2 ^ t) * h := Nat.mul_le_mul_right h hn2.1
    _ = 2 * n2 * 2 ^ t * h + 2 ^ t * h := by ring
  have K2 : 360 * (a * W) + 360 * W ≤ 360 * (W * h) := by
    calc 360 * (a * W) + 360 * W = 360 * ((a + 1) * W) := by ring
    _ ≤ 360 * (h * W) := Nat.mul_le_mul_left 360 (Nat.mul_le_mul_right W (by omega))
    _ = 360 * (W * h) := by ring
  have K3 : 180 * h + 2 ^ t * h < 360 * W := by
    have h436 : 180 * h + 2 ^ t * h ≤ 436 * h := by
      calc 180 * h + 2 ^ t * h ≤ 180 * h + 256 * h := Nat.add_le_add_left (Nat.mul_le_mul_right h ht256) _
      _ = 436 * h := by ring
    have hb : 436 * h ≤ 436 * 2 ^ 40 := Nat.mul_le_mul_left 436 hh
    have hc : 436 * 2 ^ 40 < 2 ^ 53 := by norm_num
    have hd : (2 : Nat) ^ 53 ≤ 360 * W := le_trans hW53 (Nat.le_mul_of_pos_left W (by norm_num))
    omega
  have K3w : 180 * h + 2 ^ t * h ≤ 2 * (W * h) := by
    have h436 : 180 * h + 2 ^ t * h ≤ 436 * h := by
      calc 180 * h + 2 ^ t * h ≤ 180 * h + 256 * h := Nat.add_le_add_left (Nat.mul_le_mul_right h ht256) _
      _ = 436 * h := by ring
    have hWh : 436 * h ≤ 2 * (W * h) := by
      calc 436 * h = 436 * h := rfl
      _ ≤ (2 * W) * h := Nat.mul_le_mul_right h (by
          calc (436 : Nat) ≤ 2 * 2 ^ 53 := by norm_num
          _ ≤ 2 * W := Nat.mul_le_mul_left 2 hW53)
      _ = 2 * (W * h) := by ring
    omega
  -- goal (c): strictly below 180
  have hch : 2 * n2 * 2 ^ t * h < 360 * (W * h) := by
    have hfin : 2 * n2 * 2 ^ t * h + 360 * W ≤ 360 * (W * h) + (180 * h + 2 ^ t * h) := by
      calc 2 * n2 * 2 ^ t * h + 360 * W
          ≤ (360 * (a * W) + 180 * h + 2 ^ t * h) + 360 * W := Nat.add_le_add_right K1 _
      _ = (360 * (a * W) + 360 * W) + (180 * h + 2 ^ t * h) := by ring
      _ ≤ 360 * (W * h) + (180 * h + 2 ^ t * h) := Nat.add_le_add_right K2 _
    omega
  have hcancel : n2 < 180 * 2 ^ u := by
    have h1 : (2 * n2 * 2 ^ t) * h < (360 * (2 ^ u * 2 ^ t)) * h := by
      rw [hWut]
      calc (2 * n2 * 2 ^ t) * h = 2 * n2 * 2 ^ t * h := by ring
      _ < 360 * (W * h) := hch
      _ = 360 * W * h := by ring
    have h2 : 2 * n2 * 2 ^ t < 360 * (2 ^ u * 2 ^ t) :=
      lt_of_mul_lt_mul_right h1 (Nat.zero_le h)
    have h3 : (2 * n2) * 2 ^ t < (360 * 2 ^ u) * 2 ^ t := by
      calc (2 * n2) * 2 ^ t = 2 * n2 * 2 ^ t := by ring
      _ < 360 * (2 ^ u * 2 ^ t) := h2
      _ = (360 * 2 ^ u) * 2 ^ t := by ring
    have h4 : 2 * n2 < 360 * 2 ^ u := lt_of_mul_lt_mul_right h3 (Nat.zero_le _)
    omega
  have goal_c : n2 / 2 ^ u < 180 := (Nat.div_lt_iff_lt_mul hupos).mpr (by
    calc n2 < 180 * 2 ^ u := hcancel)
  -- goal (d) upper: at most one above the exact ramp value
  have hE := Nat.div_add_mod (180 * a) h
  have hEr : 180 * a % h < h := Nat.mod_lt _ hh0
  have M2 : 360 * (a * W) + 2 * W ≤ 2 * (180 * a / h + 1) * (W * h) := by
    have hM1 : 180 * a + 1 ≤ (180 * a / h + 1) * h := by
      have : (180 * a / h + 1) * h = h * (180 * a / h) + h := by ring
      omega
    calc 360 * (a * W) + 2 * W = (180 * a + 1) * (2 * W) := by ring
    _ ≤ ((180 * a / h + 1) * h) * (2 * W) := Nat.mul_le_mul_right _ hM1
    _ = 2 * (180 * a / h + 1) * (W * h) := by ring
  have goal_d_hi : n2 / 2 ^ u ≤ 180 * a / h + 1 := by
    have hchain : 2 * n2 * 2 ^ t * h < 2 * (180 * a / h + 2) * (W * h) := by
      have h5 : 2 * n2 * 2 ^ t * h + 2 * W ≤
          2 * (180 * a / h + 1) * (W * h) + (180 * h + 2 ^ t * h) := by
        calc 2 * n2 * 2 ^ t * h + 2 * W
            ≤ (360 * (a * W) + 180 * h + 2 ^ t * h) + 2 * W := Nat.add_le_add_right K1 _
        _ = (360 * (a * W) + 2 * W) + (180 * h + 2 ^ t * h) := by ring
        _ ≤ 2 * (180 * a / h + 1) * (W * h) + (180 * h + 2 ^ t * h) :=
            Nat.add_le_add_right M2 _
      have h6 : 2 * (180 * a / h + 2) * (W * h) =
          2 * (180 * a / h + 1) * (W * h) + 2 * (W * h) := by ring
      omega
    have h1 : (2 * n2 * 2 ^ t) * h < (2 * (180 * a / h + 2) * (2 ^ u * 2 ^ t)) * h := by
      rw [hWut]
      calc (2 * n2 * 2 ^ t) * h = 2 * n2 * 2 ^ t * h := by ring
      _ < 2 * (180 * a / h + 2) * (W * h) := hchain
      _ = 2 * (180 * a / h + 2) * W * h := by ring
    have h2 : (2 * n2) * 2 ^ t < (2 * (180 * a / h + 2) * 2 ^ u) * 2 ^ t := by
      have := lt_of_mul_lt_mul_right h1 (Nat.zero_le h)
      calc (2 * n2) * 2 ^ t = 2 * n2 * 2 ^ t := by ring
      _ < 2 * (180 * a / h + 2) * (2 ^ u * 2 ^ t) := this
      _ = (2 * (180 * a / h + 2) * 2 ^ u) * 2 ^ t := by ring
    have h3 : 2 * n2 < 2 * (180 * a / h + 2) * 2 ^ u :=
      lt_of_mul_lt_mul_right h2 (Nat.zero_le _)
    have h4 : n2 < (180 * a / h + 2) * 2 ^ u := by
      have : 2 * ((180 * a / h + 2) * 2 ^ u) = 2 * (180 * a / h + 2) * 2 ^ u := by ring
      omega
    have h5 : n2 / 2 ^ u < 180 * a / h + 2 := (Nat.div_lt_iff_lt_mul hupos).mpr h4
    omega
  -- goal (d) lower: at most one below the exact ramp value
  have goal_d_lo : 180 * a / h - 1 ≤ n2 / 2 ^ u := by
    rcases Nat.eq_zero_or_pos (180 * a / h) with hE0 | hE1
    · have hz : 180 * a / h - 1 = 0 := by omega
      rw [hz]
      exact Nat.zero_le _
    · obtain ⟨F, hF⟩ : ∃ F, 180 * a / h = F + 1 := ⟨180 * a / h - 1, by omega⟩
      have hgoal : F ≤ n2 / 2 ^ u → 180 * a / h - 1 ≤ n2 / 2 ^ u := by omega
      apply hgoal
      have N2 : 2 * (180 * a / h) * (W * h) ≤ 360 * (a * W) := by
        have hN1 : (180 * a / h) * h ≤ 180 * a := Nat.div_mul_le_self _ _
        calc 2 * (180 * a / h) * (W * h) = ((180 * a / h) * h) * (2 * W) := by ring
        _ ≤ (180 * a) * (2 * W) := Nat.mul_le_mul_right _ hN1
        _ = 360 * (a * W) := by ring
      have N3 : 360 * (a * W) ≤ 360 * (n1 * h) + 180 * h := by
        calc 360 * (a * W) = 180 * (2 * (a * W)) := by ring
        _ ≤ 180 * (2 * n1 * h + h) := Nat.mul_le_mul_left 180 hn1.1
        _ = 360 * (n1 * h) + 180 * h := by ring
      have hlow : 2 * (180 * a / h) * (W * h) ≤ 2 * n2 * 2 ^ t * h + 2 * (W * h) := by
        have hstep : 360 * (n1 * h) + 180 * h ≤
            2 * n2 * 2 ^ t * h + (180 * h + 2 ^ t * h) := by
          have := Nat.add_le_add_right K1lo (180 * h)
          omega
        have := le_trans N2 (le_trans N3 hstep)
        omega
      rw [hF] at hlow
      have hexp : 2 * (F + 1) * (W * h) = 2 * F * (W * h) + 2 * (W * h) := by ring
      have hfin : 2 * F * (W * h) ≤ 2 * n2 * 2 ^ t * h := by omega
      have h1 : ((F * 2 ^ u * 2) * 2 ^ t) * h ≤ ((2 * n2) * 2 ^ t) * h := by
        calc ((F * 2 ^ u * 2) * 2 ^ t) * h = 2 * F * ((2 ^ u * 2 ^ t) * h) := by ring
        _ = 2 * F * (W * h) := by rw [hWut]
        _ ≤ 2 * n2 * 2 ^ t * h := hfin
        _ = ((2 * n2) * 2 ^ t) * h := by ring
      have h2 := Nat.le_of_mul_le_mul_right h1 hh0
      have h3 := Nat.le_of_mul_le_mul_right h2 (Nat.pos_pow_of_pos t (by norm_num))
      have h4 : F * 2 ^ u ≤ n2 := by omega
      exact (Nat.le_div_iff_mul_le hupos).mpr h4
  exact ⟨goal_c, goal_d_lo, goal_d_hi⟩

/-- The float64 gradient alpha stays strictly below the configured maximum
180 and within one unit of the exact linear interpolation `⌊720*i/h⌋`, for
every drawn row of every height up to `2^40` (far beyond any real image). -/
lemma gradAlpha_bounds (h i : Nat) (hi : 1 ≤ i) (hih : 4 * i < h) (hh : h ≤ 2 ^ 40) :
    gradAlpha h i < 180 ∧
    720 * i / h - 1 ≤ gradAlpha h i ∧ gradAlpha h i ≤ 720 * i / h + 1 := by
  have hh0 : 0 < h := by omega
  have hi0 : ¬ i = 0 := by omega
  have hD1 : 1 ≤ 4 * i * 2 ^ 60 / h := by
    apply (Nat.one_le_div_iff hh0).mpr
    calc h ≤ 2 ^ 40 := hh
    _ ≤ 2 ^ 60 := Nat.pow_le_pow_right (by norm_num) (by norm_num)
    _ ≤ 4 * i * 2 ^ 60 := Nat.le_mul_of_pos_left _ (by omega)
  have hDspec := ilog2_spec _ hD1
  have hstar1 : 2 ^ gradQuotExp h i * h ≤ 4 * i * 2 ^ 60 := by
    calc 2 ^ gradQuotExp h i * h ≤ (4 * i * 2 ^ 60 / h) * h :=
        Nat.mul_le_mul_right h hDspec.1
    _ ≤ 4 * i * 2 ^ 60 := Nat.div_mul_le_self _ _
  have hstar2 : 4 * i * 2 ^ 60 < 2 ^ (gradQuotExp h i + 1) * h := by
    have hdm := Nat.div_add_mod (4 * i * 2 ^ 60) h
    have hmod : 4 * i * 2 ^ 60 % h < h := Nat.mod_lt _ hh0
    have hD2 : 4 * i * 2 ^ 60 / h + 1 ≤ 2 ^ (gradQuotExp h i + 1) := hDspec.2
    calc 4 * i * 2 ^ 60 = h * (4 * i * 2 ^ 60 / h) + 4 * i * 2 ^ 60 % h := hdm.symm
    _ < h * (4 * i * 2 ^ 60 / h) + h := by omega
    _ = (4 * i * 2 ^ 60 / h + 1) * h := by ring
    _ ≤ 2 ^ (gradQuotExp h i + 1) * h := Nat.mul_le_mul_right h hD2
  have hS59 : gradQuotExp h i ≤ 59 := by
    have hDlt : 4 * i * 2 ^ 60 / h < 2 ^ 60 := by
      apply (Nat.div_lt_iff_lt_mul hh0).mpr
      calc 4 * i * 2 ^ 60 < h * 2 ^ 60 :=
          mul_lt_mul_of_pos_right hih (Nat.pos_pow_of_pos _ (by norm_num))
      _ = 2 ^ 60 * h := by ring
    have h1 : 2 ^ gradQuotExp h i < 2 ^ 60 := lt_of_le_of_lt hDspec.1 hDlt
    by_contra hc
    push_neg at hc
    have h2 : (2 : Nat) ^ 60 ≤ 2 ^ gradQuotExp h i :=
      Nat.pow_le_pow_right (by norm_num) (by omega)
    omega
  have hn1 := rhe_halfulp (4 * i * 2 ^ (112 - gradQuotExp h i)) h hh0
  have hn1pos : 1 ≤ gradQuotSig h i := by
    by_contra hc
    push_neg at hc
    have hz : gradQuotSig h i = 0 := by omega
    have h1 := hn1.1
    have hzr : rhe (4 * i * 2 ^ (112 - gradQuotExp h i)) h = 0 := hz
    rw [hzr] at h1
    have hW53 : (2 : Nat) ^ 53 ≤ 2 ^ (112 - gradQuotExp h i) :=
      Nat.pow_le_pow_right (by norm_num) (by omega)
    have h2 : 2 ^ 53 ≤ 4 * i * 2 ^ (112 - gradQuotExp h i) :=
      le_trans hW53 (Nat.le_mul_of_pos_left _ (by omega))
    have h53 : (2 : Nat) ^ 53 = 9007199254740992 := by norm_num
    have h40 : (2 : Nat) ^ 40 = 1099511627776 := by norm_num
    omega
  have hTspec := ilog2_spec (180 * gradQuotSig h i) (by omega)
  have hn2 := rhe_halfulp (180 * gradQuotSig h i) (2 ^ gradProdShift h i)
    (Nat.pos_pow_of_pos _ (by norm_num))
  have hmain := float_pipeline_bounds h (4 * i) (gradQuotExp h i) (gradQuotSig h i)
      (ilog2 (180 * gradQuotSig h i)) (gradProdSig h i)
      hh0 hih hh ⟨hstar1, hstar2⟩ hS59 hn1 hTspec hn2
  have halpha : gradAlpha h i =
      gradProdSig h i / 2 ^ (112 - gradQuotExp h i - gradProdShift h i) := by
    unfold gradAlpha
    rw [if_neg hi0]
  rw [halpha]
  have h720 : 720 * i = 180 * (4 * i) := by ring
  rw [h720]
  exact hmain

/-! ## Font resolution -/

/-- The `defaultFontPaths` list from `gen_thumb.go`. -/
def defaultFontPaths : List String :=
  ["/usr/share/fonts/truetype/dejavu/DejaVuSans-Bold.ttf",
   "/usr/share/fonts/truetype/dejavu/DejaVuSans.ttf",
   "/usr/share/fonts/dejavu/DejaVuSans-Bold.ttf",
   "/usr/share/fonts/truetype/liberation/LiberationSans-Bold.ttf",
   "/System/Library/Fonts/Helvetica.ttc",
   "/usr/share/fonts/truetype/ubuntu/Ubuntu-Bold.ttf"]

/-- The loop of `loadFont` over `defaultFontPaths`: skip paths that do not
exist (`fileExists`), return the first whose `dc.LoadFontFace` succeeds
(`parses`). -/
def fontLoop (fileExists parses : String → Bool) : List String → Option String
  | [] => none
  | p :: ps =>
    if fileExists p then
      if parses p then some p else fontLoop fileExists parses ps
    else fontLoop fileExists parses ps

/-- Model of `loadFont` from `gen_thumb.go`, returning the path whose font face got
loaded (`none` = the Go `fmt.Errorf("no suitable font found")` result).
`custom` is the read of `config.ThumbnailFont`; the requested point size
does not influence which file loads, so it is not a parameter. -/
def loadFont (fileExists parses : String → Bool) (custom : String) : Option String :=
  if custom ≠ "" ∧ fileExists custom then
    if parses custom then some custom
    else fontLoop fileExists parses defaultFontPaths
  else fontLoop fileExists parses defaultFontPaths

/-! ## Text wrapping (`wrapText`)

`wrapText` consults `dc.MeasureString` for rendered widths (a `float64` in
the Go code) and only ever compares widths against the budget, so the width
domain is modelled as an arbitrary linear order `α`; the pipeline
instantiates it with `ℚ`. -/

variable {α : Type} [LinearOrder α]

/-- The accumulation loop of `wrapText`: `lines`/`currentLine` as in the Go
code, the final non-empty `currentLine` is flushed when the words run out. -/
def wrapLoop (measure : String → α) (maxWidth : α) :
    List String → List String → String → List String
  | [], lines, currentLine =>
    if currentLine ≠ "" then lines ++ [currentLine] else lines
  | word :: ws, lines, currentLine =>
    let testLine := (if currentLine ≠ "" then currentLine ++ " " else currentLine) ++ word
    if maxWidth < measure testLine ∧ currentLine ≠ "" then
      wrapLoop measure maxWidth ws (lines ++ [currentLine]) word
    else
      wrapLoop measure maxWidth ws lines testLine

/-- The greedy line list `wrapText` builds before the two-line cap. -/
def wrapLines (measure : String → α) (maxWidth : α) (text : String) : List String :=
  wrapLoop measure maxWidth (fields text) [] ""

/-- The ellipsis loop on the second line: keep dropping the last word until
`lastLine + "..."` fits; `none` models the `break` without assignment that
the Go code takes when a single word remains, in which case `lines[1]`
keeps its original value.  The fuel only bounds the iteration count; one
unit per word (plus one) is always enough, since each pass removes a word. -/
def truncGo (measure : String → α) (maxWidth : α) : Nat → String → Option String
  | 0, _ => none
  | fuel + 1, lastLine =>
    if measure (lastLine ++ "...") ≤ maxWidth then some (lastLine ++ "...")
    else if (fields lastLine).length ≤ 1 then none
    else truncGo measure maxWidth fuel (joinWith " " (fields lastLine).dropLast)

/-- Model of `wrapText` from `gen_thumb.go`. -/
def wrapText (measure : String → α) (maxWidth : α) (text : String) : String :=
  if fields text = [] then text
  else
    let lines := wrapLines measure maxWidth text
    if 2 < lines.length then
      let l1 := lines.getD 1 ""
      joinWith "\n"
        [lines.getD 0 "", (truncGo measure maxWidth ((fields l1).length + 1) l1).getD l1]
    else joinWith "\n" lines

/-! ## The compositor (`addOverlay`) and the orchestrator (`ProcessThumbnail`) -/

/-- Abstraction of the ambient effectful world `gen_thumb.go` runs in:
configuration reads, the TTL cache, the filesystem, the network and the
font rasterizer. -/
structure Env where
  /-- `config.ThumbnailOverlay`. -/
  thumbnailOverlay : Bool
  /-- `config.ThumbnailFont`. -/
  thumbnailFont : String
  /-- `thumbnailCache.Get`: `none` models `ok = false`. -/
  cacheGet : String → Option String
  /-- `fileExists` (`os.Stat(path)` succeeding). -/
  fileExists : String → Bool
  /-- The result of `downloadImage(url)`: the decoded bitmap's dimensions,
  or the error (HTTP GET failure, non-200 status, read or decode failure). -/
  download : String → Except String Dims
  /-- Whether `dc.LoadFontFace(path, size)` succeeds for a given path. -/
  fontParses : String → Bool
  /-- `dc.MeasureString` at a given font size. -/
  measure : ℚ → String → ℚ
  /-- The error result of `saveImage(img, path, quality)`. -/
  save : String → Nat → Option String
  /-- `generateOutputPath()` (timestamp-based, fixed per invocation). -/
  outputPath : String

/-- The observable content of the image `addOverlay` returns: its
dimensions, the gradient rows drawn on it (y coordinate and alpha), and
which text layers were rendered. -/
structure RenderedImage where
  dims : Dims
  gradient : List (ℚ × Nat)
  titleDrawn : Bool
  titleWrapped : String
  durationDrawn : Bool
deriving DecidableEq

/-- Go computes `titleFontSize := float64(width) / 25.0`. -/
def titleFontSize (width : Nat) : ℚ := (width : ℚ) / 25

/-- Go computes `durationFontSize := float64(width) / 35.0`. -/
def durationFontSize (width : Nat) : ℚ := (width : ℚ) / 35

/-- Model of `addOverlay` from `gen_thumb.go`.  Mirrors the Go control flow:
resize into the bounding box, draw the per-row gradient on a fresh context,
resolve the title font — on failure return the untouched (pre-context)
resized image and a `nil` error — then draw the wrapped title and, if its
own font load succeeds, the duration text.  Every return site of the Go
function carries a `nil` error. -/
def addOverlay (env : Env) (img : Dims) (cfg : ThumbnailConfig) :
    RenderedImage × Option String :=
  let d := resizeStep cfg.Width cfg.Height img
  let grad := (gradientRows d.height).map fun i => (gradRowY d.height i, gradAlpha d.height i)
  if (loadFont env.fileExists env.fontParses env.thumbnailFont).isNone then
    -- `return img, nil`: the gradient lived only on the discarded context.
    (⟨d, [], false, "", false⟩, none)
  else
    let wrapped :=
      if cfg.TitleText ≠ "" then
        wrapText (env.measure (titleFontSize d.width)) ((d.width : ℚ) * 9 / 10) cfg.TitleText
      else ""
    let durationDrawn :=
      cfg.DurationText ≠ "" ∧
        (loadFont env.fileExists env.fontParses env.thumbnailFont).isSome
    (⟨d, grad, cfg.TitleText ≠ "", wrapped, decide durationDrawn⟩, none)

/-- The observable outcome of one `ProcessThumbnail` call: the Go return
values (`path`, `error`) plus the side effects performed. -/
structure PTEffects where
  /-- First return value. -/
  path : String
  /-- Second return value (`none` = `nil`). -/
  error : Option String
  /-- Whether `thumbnailCache.Get` was consulted. -/
  cacheChecked : Bool
  /-- Number of `downloadImage` calls (HTTP GETs) issued. -/
  downloads : Nat
  /-- Whether `addOverlay` ran. -/
  composed : Bool
  /-- `saveImage` attempt, with path and JPEG quality, if any. -/
  saveAttempt : Option (String × Nat)
  /-- `thumbnailCache.Set` call, with key and value, if any. -/
  cacheSet : Option (String × String)
deriving DecidableEq

/-- The part of `ProcessThumbnail` that runs on a cache miss: download,
optionally compose, save, publish to the cache. -/
def missFlow (env : Env) (thumbnailURL title duration : String) : PTEffects :=
  let key := cacheKey thumbnailURL title duration
  match env.download thumbnailURL with
  | .error e =>
    { path := "", error := some e, cacheChecked := true, downloads := 1,
      composed := false, saveAttempt := none, cacheSet := none }
  | .ok img =>
    if env.thumbnailOverlay = false then
      match env.save env.outputPath 95 with
      | some e =>
        { path := "", error := some e, cacheChecked := true, downloads := 1,
          composed := false, saveAttempt := some (env.outputPath, 95), cacheSet := none }
      | none =>
        { path := env.outputPath, error := none, cacheChecked := true, downloads := 1,
          composed := false, saveAttempt := some (env.outputPath, 95),
          cacheSet := some (key, env.outputPath) }
    else
      let cfg := { DefaultThumbnailConfig env.thumbnailOverlay with
                   TitleText := title, DurationText := duration }
      match addOverlay env img cfg with
      | (_, some e) =>
        { path := "", error := some e, cacheChecked := true, downloads := 1,
          composed := true, saveAttempt := none, cacheSet := none }
      | (_, none) =>
        match env.save env.outputPath cfg.Quality with
        | some e =>
          { path := "", error := some e, cacheChecked := true, downloads := 1,
            composed := true, saveAttempt := some (env.outputPath, cfg.Quality),
            cacheSet := none }
        | none =>
          { path := env.outputPath, error := none, cacheChecked := true, downloads := 1,
            composed := true, saveAttempt := some (env.outputPath, cfg.Quality),
            cacheSet := some (key, env.outputPath) }

/-- Model of `ProcessThumbnail` from `gen_thumb.go`. -/
def ProcessThumbnail (env : Env) (thumbnailURL title duration : String) : PTEffects :=
  if thumbnailURL = "" then
    { path := "", error := none, cacheChecked := false, downloads := 0,
      composed := false, saveAttempt := none, cacheSet := none }
  else
    match env.cacheGet (cacheKey thumbnailURL title duration) with
    | some cached =>
      if env.fileExists cached then
        { path := cached, error := none, cacheChecked := true, downloads := 0,
          composed := false, saveAttempt := none, cacheSet := none }
      else missFlow env thumbnailURL title duration
    | none => missFlow env thumbnailURL title duration

/-! ## Concrete environments used to instantiate the theorems -/

/-- A world with a fresh cache entry for `("u", "t", "3:05")` whose file exists. -/
def envHit : Env where
  thumbnailOverlay := true
  thumbnailFont := ""
  cacheGet := fun k => if k = cacheKey "u" "t" "3:05" then some "/tmp/a.jpg" else none
  fileExists := fun p => p == "/tmp/a.jpg"
  download := fun _ => .error "network unreachable"
  fontParses := fun _ => false
  measure := fun _ s => (s.length : ℚ)
  save := fun _ _ => none
  outputPath := "/tmp/yukki_thumbnails/thumb_1.jpg"

/-- A world with an empty cache and a failing network. -/
def envMiss : Env where
  thumbnailOverlay := true
  thumbnailFont := ""
  cacheGet := fun _ => none
  fileExists := fun _ => false
  download := fun _ => .error "bad status: 404 Not Found"
  fontParses := fun _ => false
  measure := fun _ s => (s.length : ℚ)
  save := fun _ _ => none
  outputPath := "/tmp/yukki_thumbnails/thumb_2.jpg"

/-- A world with an empty cache, a working network and filesystem, but no
loadable font anywhere. -/
def envNoFont : Env where
  thumbnailOverlay := true
  thumbnailFont := ""
  cacheGet := fun _ => none
  fileExists := fun _ => true
  download := fun _ => .ok ⟨800, 600⟩
  fontParses := fun _ => false
  measure := fun _ s => (s.length : ℚ)
  save := fun _ _ => none
  outputPath := "/tmp/yukki_thumbnails/thumb_3.jpg"

/-! ## Claim theorems -/

/-- Claim C10 — For the empty thumbnail URL, `ProcessThumbnail` returns an empty
path and a `nil` error immediately: no cache lookup, no download, no
composition, no save and no cache write; the empty result is a signal, not
an error. -/
theorem c10_empty_url (env : Env) (title duration : String) :
    ProcessThumbnail env "" title duration =
      { path := "", error := none, cacheChecked := false, downloads := 0,
        composed := false, saveAttempt := none, cacheSet := none } := rfl

/-- Claim C1 — With a non-empty URL and a cache entry `p` for the derived key:
if `p`'s file exists, `ProcessThumbnail` returns `p` with no error, no
download, no composition, no save and no cache write; if the file does not
exist, the call behaves exactly as a cache miss (`missFlow`), regenerating
the thumbnail, so a stale cached path is never returned. -/
theorem c1_cache_hit (env : Env) (url title duration : String) (hurl : url ≠ "")
    (p : String) (hc : env.cacheGet (cacheKey url title duration) = some p) :
    (env.fileExists p = true →
      ProcessThumbnail env url title duration =
        { path := p, error := none, cacheChecked := true, downloads := 0,
          composed := false, saveAttempt := none, cacheSet := none }) ∧
    (env.fileExists p = false →
      ProcessThumbnail env url title duration = missFlow env url title duration) := by
  constructor
  · intro hex
    simp [ProcessThumbnail, hurl, hc, hex]
  · intro hex
    simp [ProcessThumbnail, hurl, hc, hex]

/-- Witness for C1 at a concrete environment. -/
theorem c1_cache_hit_witness :
    ProcessThumbnail envHit "u" "t" "3:05" =
      { path := "/tmp/a.jpg", error := none, cacheChecked := true, downloads := 0,
        composed := false, saveAttempt := none, cacheSet := none } :=
  (c1_cache_hit envHit "u" "t" "3:05" (by decide) "/tmp/a.jpg" (by decide)).1 (by decide)

/-- Claim C2 — On a cache miss, a download failure makes `ProcessThumbnail`
return an empty path and the error, with exactly one GET issued (no retry),
no composition, no save attempt and no cache write. -/
theorem c2_download_failure (env : Env) (url title duration e : String) (hurl : url ≠ "")
    (hmiss : ∀ p, env.cacheGet (cacheKey url title duration) = some p →
      env.fileExists p = false)
    (hdl : env.download url = .error e) :
    ProcessThumbnail env url title duration =
      { path := "", error := some e, cacheChecked := true, downloads := 1,
        composed := false, saveAttempt := none, cacheSet := none } := by
  rcases hcg : env.cacheGet (cacheKey url title duration) with _ | p
  · simp [ProcessThumbnail, hurl, hcg, missFlow, hdl]
  · simp [ProcessThumbnail, hurl, hcg, hmiss p hcg, missFlow, hdl]

/-- Witness for C2 at a concrete environment. -/
theorem c2_download_failure_witness :
    ProcessThumbnail envMiss "http://x/y.jpg" "t" "3:05" =
      { path := "", error := some "bad status: 404 Not Found", cacheChecked := true,
        downloads := 1, composed := false, saveAttempt := none, cacheSet := none } :=
  c2_download_failure envMiss "http://x/y.jpg" "t" "3:05" "bad status: 404 Not Found"
    (by decide) (fun p h => nomatch h) rfl

/-- Claim C5 — Evaluation of the resize step at the failing input.  The code
resizes exactly when the source exceeds 1280×720 and leaves smaller bitmaps
untouched, but `resize.Resize(1280, 720, …)` with both target dimensions
nonzero forces the output to exactly 1280×720: a 1000×1000 source becomes
1280×720, so its 1:1 aspect ratio is not preserved (1280·1000 ≠ 1000·720)
and its width is upscaled from 1000 to 1280 — contradicting the claim, the
spec and the repository's own documentation ("maintains aspect ratio"). -/
theorem c5_resize_eval :
    resizeStep 1280 720 ⟨1000, 1000⟩ = ⟨1280, 720⟩ ∧
    (1280 : Nat) * 1000 ≠ 1000 * 720 ∧
    (1000 : Nat) < 1280 ∧
    resizeStep 1280 720 ⟨1280, 720⟩ = ⟨1280, 720⟩ ∧
    resizeStep 1280 720 ⟨800, 600⟩ = ⟨800, 600⟩ := by decide

/-- Claim C6, counterexample — the claim says the per-row alpha is linearly
interpolated and reaches the maximum 180 at the bottom edge.  At the
default height 720 the bottom-most drawn row is `i = 179` and the float64
computation gives alpha 179, never 180; moreover the double rounding makes
row 13's alpha 12 where the exact interpolation `⌊720·13/720⌋` is 13, so
even the exact per-row interpolation formula does not hold. -/
theorem c6_counterexample :
    (gradientRows 720).getLast? = some 179 ∧ gradAlpha 720 179 = 179 ∧
    gradAlpha 720 13 = 12 ∧ 720 * 13 / 720 = 13 := by
  refine ⟨?_, by decide, by decide, by norm_num⟩
  rw [gradientRows_eq]
  decide

/-- Claim C6, amended — for a composed image of height `h` (positive,
divisible by 4 so that the 25% band is a whole number of rows, and within
the float64-exactness range `h ≤ 2^40`, far beyond any real image): the
gradient is drawn as the `h/4` one-pixel rows `i = 0, …, h/4 - 1` placed at
`y = h - h/4 + i` — the bottom quarter of the image, ending at row `h - 1`;
the alpha of row `i` is the float64 evaluation of `(i / (h/4)) * 180`,
which is 0 at the band's top edge, within one unit of the exact linear
interpolation `⌊720·i/h⌋` at every row, and strictly below the configured
maximum 180 everywhere, the bottom edge included (179 there at the default
height 720). -/
theorem c6_gradient_amended (h : Nat) (hpos : 0 < h) (hdvd : 4 ∣ h)
    (hfp : h ≤ 2 ^ 40) :
    gradientRows h = List.range (h / 4) ∧
    gradAlpha h 0 = 0 ∧
    (∀ i ∈ gradientRows h,
      720 * i / h - 1 ≤ gradAlpha h i ∧ gradAlpha h i ≤ 720 * i / h + 1) ∧
    (∀ i ∈ gradientRows h, gradAlpha h i < 180) ∧
    gradRowY h 0 = (h : ℚ) - (h : ℚ) / 4 ∧
    gradRowY h (h / 4 - 1) = (h : ℚ) - 1 := by
  obtain ⟨k, rfl⟩ := hdvd
  have hk : 0 < k := by omega
  have hrows : gradientRows (4 * k) = List.range (4 * k / 4) := by
    rw [gradientRows_eq]
    congr 1
    omega
  have hmem : ∀ i ∈ gradientRows (4 * k), 4 * i < 4 * k := by
    intro i hi2
    rw [hrows] at hi2
    simp only [List.mem_range] at hi2
    omega
  have hzero : gradAlpha (4 * k) 0 = 0 := rfl
  refine ⟨hrows, hzero, ?_, ?_, ?_, ?_⟩
  · intro i hi2
    rcases Nat.eq_zero_or_pos i with rfl | hi1
    · rw [hzero]
      constructor
      · simp
      · exact Nat.zero_le _
    · exact (gradAlpha_bounds (4 * k) i hi1 (hmem i hi2) hfp).2
  · intro i hi2
    rcases Nat.eq_zero_or_pos i with rfl | hi1
    · rw [hzero]
      norm_num
    · exact (gradAlpha_bounds (4 * k) i hi1 (hmem i hi2) hfp).1
  · unfold gradRowY gradientHeight
    push_cast
    ring
  · unfold gradRowY gradientHeight
    have h4 : 4 * k / 4 = k := by omega
    rw [h4, Nat.cast_sub hk]
    push_cast
    ring

/-- Witness for C6 at the concrete height 8 and row 1. -/
theorem c6_gradient_witness : gradAlpha 8 1 < 180 :=
  (c6_gradient_amended 8 (by norm_num) (by norm_num) (by norm_num)).2.2.2.1 1
    (by rw [gradientRows_eq]; decide)

lemma toDecAux_digits :
    ∀ (fuel n : Nat) (acc : List Char), (∀ c ∈ acc, c.isDigit = true) →
      ∀ c ∈ toDecAux fuel n acc, c.isDigit = true := by
  intro fuel
  induction fuel with
  | zero => intro n acc hacc c hc; exact hacc c hc
  | succ fuel ih =>
    intro n acc hacc c hc
    unfold toDecAux at hc
    by_cases hn : n = 0
    · rw [if_pos hn] at hc
      exact hacc c hc
    · rw [if_neg hn] at hc
      refine ih (n / 10) _ ?_ c hc
      intro d hd
      rcases List.mem_cons.mp hd with rfl | hd2
      · have hm : n % 10 < 10 := Nat.mod_lt _ (by norm_num)
        revert hm
        generalize n % 10 = m
        intro hm
        interval_cases m <;> decide
      · exact hacc d hd2

lemma toDec_digits (n : Nat) : ∀ c ∈ (toDec n).data, c.isDigit = true := by
  unfold toDec
  by_cases hn : n = 0
  · rw [if_pos hn]
    decide
  · rw [if_neg hn]
    exact toDecAux_digits n n [] (by intro c hc; cases hc)

lemma colonCount_append (s t : String) :
    colonCount (s ++ t) = colonCount s + colonCount t := by
  unfold colonCount
  rw [String.data_append, List.count_append]

lemma colonCount_pad2 (n : Nat) : colonCount (pad2 n) = 0 := by
  have hdec : colonCount (toDec n) = 0 := by
    unfold colonCount
    rw [List.count_eq_zero]
    intro hmem
    exact absurd (toDec_digits n ':' hmem) (by decide)
  unfold pad2
  by_cases h10 : n < 10
  · rw [if_pos h10, colonCount_append, hdec]
    decide
  · rw [if_neg h10]
    exact hdec

lemma pad2_length : ∀ n < 100, (pad2 n).length = 2 := by decide

/-- Claim C4 — `FormatDurationForThumbnail` is a pure function of the integer
second count, matching the four spec examples; the hours field appears in
the output exactly when the hour count is positive (the output has two
colons rather than one exactly when `3600 ≤ s`), and the output always ends
with two-digit zero-padded minute and second fields below 60. -/
theorem c4_format_duration :
    FormatDurationForThumbnail 0 = "00:00" ∧
    FormatDurationForThumbnail 65 = "01:05" ∧
    FormatDurationForThumbnail 3661 = "01:01:01" ∧
    FormatDurationForThumbnail (-5) = "00:00" ∧
    (∀ s : Int, colonCount (FormatDurationForThumbnail s) = 2 ↔ 3600 ≤ s) ∧
    (∀ s : Int, ∃ pre, ∃ m k : Nat, m < 60 ∧ k < 60 ∧
      (pad2 m).length = 2 ∧ (pad2 k).length = 2 ∧
      FormatDurationForThumbnail s = pre ++ pad2 m ++ ":" ++ pad2 k) := by
  have hcolon : colonCount ":" = 1 := by decide
  refine ⟨by decide, by decide, by decide, by decide, ?_, ?_⟩
  · intro s
    simp only [FormatDurationForThumbnail]
    by_cases hs : s ≤ 0
    · rw [if_pos hs]
      have h1 : colonCount "00:00" = 1 := by decide
      rw [h1]
      constructor
      · omega
      · intro h; omega
    · rw [if_neg hs]
      by_cases hh : 0 < s.toNat / 3600
      · rw [if_pos hh]
        have h2 : colonCount (pad2 (s.toNat / 3600) ++ ":" ++ pad2 (s.toNat % 3600 / 60) ++
            ":" ++ pad2 (s.toNat % 60)) = 2 := by
          rw [colonCount_append, colonCount_append, colonCount_append, colonCount_append]
          rw [colonCount_pad2, colonCount_pad2, colonCount_pad2, hcolon]
        rw [h2]
        constructor
        · intro _; omega
        · intro _; rfl
      · rw [if_neg hh]
        have h1 : colonCount (pad2 (s.toNat % 3600 / 60) ++ ":" ++ pad2 (s.toNat % 60)) = 1 := by
          rw [colonCount_append, colonCount_append, colonCount_pad2, colonCount_pad2, hcolon]
        rw [h1]
        constructor
        · omega
        · intro h; omega
  · intro s
    by_cases hs : s ≤ 0
    · refine ⟨"", 0, 0, by omega, by omega, by decide, by decide, ?_⟩
      simp only [FormatDurationForThumbnail]
      rw [if_pos hs]
      decide
    · by_cases hh : 0 < s.toNat / 3600
      · refine ⟨pad2 (s.toNat / 3600) ++ ":", s.toNat % 3600 / 60, s.toNat % 60,
          by omega, by omega, pad2_length _ (by omega), pad2_length _ (by omega), ?_⟩
        simp only [FormatDurationForThumbnail]
        rw [if_neg hs, if_pos hh]
      · refine ⟨"", s.toNat % 3600 / 60, s.toNat % 60,
          by omega, by omega, pad2_length _ (by omega), pad2_length _ (by omega), ?_⟩
        simp only [FormatDurationForThumbnail]
        rw [if_neg hs, if_neg hh]
        have hempty : ∀ t : String, "" ++ t = t := fun t => rfl
        rw [hempty]

/-- Witness for C4: the hours-presence criterion evaluated at 3661 seconds. -/
theorem c4_format_duration_witness :
    colonCount (FormatDurationForThumbnail 3661) = 2 :=
  (c4_format_duration.2.2.2.2.1 3661).mpr (by norm_num)

lemma fontLoop_eq_find (fe pa : String → Bool) :
    ∀ l : List String, fontLoop fe pa l = l.find? fun p => fe p && pa p := by
  intro l
  induction l with
  | nil => rfl
  | cons p ps ih =>
    cases hfe : fe p <;> cases hpa : pa p <;>
      simp [fontLoop, List.find?_cons, hfe, hpa, ih]

/-- Claim C7 — Font resolution uses the custom path exactly when it is
non-empty, exists and parses; otherwise the result is the first of the six
`defaultFontPaths` that exists and parses (`List.find?` on the ordered
list), and it is `none` exactly when the custom path is unusable and no
default path both exists and parses. -/
theorem c7_font_resolution (fe pa : String → Bool) (custom : String) :
    (loadFont fe pa custom = some custom ↔
      custom ≠ "" ∧ fe custom = true ∧ pa custom = true) ∧
    (¬(custom ≠ "" ∧ fe custom = true ∧ pa custom = true) →
      loadFont fe pa custom = defaultFontPaths.find? fun p => fe p && pa p) ∧
    (∀ q : String, (defaultFontPaths.find? fun p => fe p && pa p) = some q →
      q ∈ defaultFontPaths ∧ fe q = true ∧ pa q = true) ∧
    (loadFont fe pa custom = none ↔
      ¬(custom ≠ "" ∧ fe custom = true ∧ pa custom = true) ∧
        ∀ q ∈ defaultFontPaths, ¬(fe q = true ∧ pa q = true)) := by
  have part3 : ∀ q : String, (defaultFontPaths.find? fun p => fe p && pa p) = some q →
      q ∈ defaultFontPaths ∧ fe q = true ∧ pa q = true := by
    intro q hq
    have h1 := List.find?_some hq
    have h2 := List.mem_of_find?_eq_some hq
    simp only [Bool.and_eq_true] at h1
    exact ⟨h2, h1.1, h1.2⟩
  have part2 : ¬(custom ≠ "" ∧ fe custom = true ∧ pa custom = true) →
      loadFont fe pa custom = defaultFontPaths.find? fun p => fe p && pa p := by
    intro hno
    unfold loadFont
    by_cases hc : custom ≠ "" ∧ fe custom = true
    · rw [if_pos hc, if_neg fun hpa => hno ⟨hc.1, hc.2, hpa⟩, fontLoop_eq_find]
    · rw [if_neg hc, fontLoop_eq_find]
  have part1 : loadFont fe pa custom = some custom ↔
      custom ≠ "" ∧ fe custom = true ∧ pa custom = true := by
    constructor
    · intro hl
      by_cases hc : custom ≠ "" ∧ fe custom = true
      · by_cases hpa : pa custom = true
        · exact ⟨hc.1, hc.2, hpa⟩
        · rw [part2 fun hx => hpa hx.2.2] at hl
          exact absurd (part3 custom hl).2.2 hpa
      · rw [part2 fun hx => hc ⟨hx.1, hx.2.1⟩] at hl
        rcases part3 custom hl with ⟨hmem, hfe2, hpa2⟩
        have hall : ∀ q ∈ defaultFontPaths, q ≠ "" := by decide
        exact ⟨hall custom hmem, hfe2, hpa2⟩
    · intro hx
      unfold loadFont
      rw [if_pos ⟨hx.1, hx.2.1⟩, if_pos hx.2.2]
  have part4 : loadFont fe pa custom = none ↔
      ¬(custom ≠ "" ∧ fe custom = true ∧ pa custom = true) ∧
        ∀ q ∈ defaultFontPaths, ¬(fe q = true ∧ pa q = true) := by
    constructor
    · intro hl
      have hno : ¬(custom ≠ "" ∧ fe custom = true ∧ pa custom = true) := by
        intro hx
        rw [part1.mpr hx] at hl
        cases hl
      refine ⟨hno, ?_⟩
      rw [part2 hno] at hl
      intro q hq hqq
      have := List.find?_eq_none.mp hl q hq
      simp [hqq.1, hqq.2] at this
    · intro hx
      rw [part2 hx.1]
      apply List.find?_eq_none.mpr
      intro q hq
      have := hx.2 q hq
      simp only [Bool.and_eq_true]
      intro hcon
      exact this hcon
  exact ⟨part1, part2, part3, part4⟩

/-- Witness for C7: with no custom font, no existing files and no parsable
font, resolution fails. -/
theorem c7_font_resolution_witness :
    loadFont (fun _ => false) (fun _ => false) "" = none :=
  (c7_font_resolution (fun _ => false) (fun _ => false) "").2.2.2.mpr
    ⟨fun h => h.1 rfl, fun _ _ h => nomatch h.1⟩

lemma addOverlay_no_error (env : Env) (img : Dims) (cfg : ThumbnailConfig) :
    (addOverlay env img cfg).2 = none := by
  unfold addOverlay
  split <;> rfl

lemma addOverlay_font_fail (env : Env) (img : Dims) (cfg : ThumbnailConfig)
    (hfont : loadFont env.fileExists env.fontParses env.thumbnailFont = none) :
    addOverlay env img cfg =
      (⟨resizeStep cfg.Width cfg.Height img, [], false, "", false⟩, none) := by
  simp [addOverlay, hfont]

/-- Claim C8 — `addOverlay` never returns an error; when font resolution fails
it returns the (possibly resized) image with no text layer and a `nil`
error, and at pipeline level a font failure still lets `ProcessThumbnail`
compose, save and return a path with no error. -/
theorem c8_font_failure_no_error (env : Env) (img : Dims) (cfg : ThumbnailConfig) :
    (addOverlay env img cfg).2 = none ∧
    (loadFont env.fileExists env.fontParses env.thumbnailFont = none →
      addOverlay env img cfg =
        (⟨resizeStep cfg.Width cfg.Height img, [], false, "", false⟩, none)) ∧
    (∀ url title duration : String,
      loadFont env.fileExists env.fontParses env.thumbnailFont = none →
      url ≠ "" →
      (∀ p, env.cacheGet (cacheKey url title duration) = some p →
        env.fileExists p = false) →
      env.download url = .ok img →
      env.thumbnailOverlay = true →
      env.save env.outputPath 85 = none →
      ProcessThumbnail env url title duration =
        { path := env.outputPath, error := none, cacheChecked := true, downloads := 1,
          composed := true, saveAttempt := some (env.outputPath, 85),
          cacheSet := some (cacheKey url title duration, env.outputPath) }) := by
  refine ⟨addOverlay_no_error env img cfg, addOverlay_font_fail env img cfg, ?_⟩
  intro url title duration hfont hurl hmiss hdl hov hsave
  have hmf : missFlow env url title duration =
      { path := env.outputPath, error := none, cacheChecked := true, downloads := 1,
        composed := true, saveAttempt := some (env.outputPath, 85),
        cacheSet := some (cacheKey url title duration, env.outputPath) } := by
    simp [missFlow, hdl, hov, addOverlay_font_fail env img _ hfont,
      DefaultThumbnailConfig, hsave]
  rcases hcg : env.cacheGet (cacheKey url title duration) with _ | p
  · simp [ProcessThumbnail, hurl, hcg, hmf]
  · simp [ProcessThumbnail, hurl, hcg, hmiss p hcg, hmf]

/-- Witness for C8 at a concrete environment with no loadable font. -/
theorem c8_font_failure_witness :
    ProcessThumbnail envNoFont "http://x/y.jpg" "Song" "3:05" =
      { path := "/tmp/yukki_thumbnails/thumb_3.jpg", error := none, cacheChecked := true,
        downloads := 1, composed := true,
        saveAttempt := some ("/tmp/yukki_thumbnails/thumb_3.jpg", 85),
        cacheSet := some (cacheKey "http://x/y.jpg" "Song" "3:05",
          "/tmp/yukki_thumbnails/thumb_3.jpg") } :=
  (c8_font_failure_no_error envNoFont ⟨800, 600⟩
      (DefaultThumbnailConfig true)).2.2 "http://x/y.jpg" "Song" "3:05"
    (by decide) (by decide) (fun _ h => nomatch h) rfl rfl rfl

lemma eq_of_data_eq (s t : String) (h : s.data = t.data) : s = t := by
  cases s
  cases t
  exact congrArg String.mk h

/-- Splitting a character list at a separator character that occurs in
neither prefix is unambiguous. -/
lemma sep_split_inj {c : Char} :
    ∀ {l₁ l₂ r₁ r₂ : List Char}, c ∉ l₁ → c ∉ l₂ →
      l₁ ++ c :: r₁ = l₂ ++ c :: r₂ → l₁ = l₂ ∧ r₁ = r₂ := by
  intro l₁
  induction l₁ with
  | nil =>
    intro l₂ r₁ r₂ h₁ h₂ heq
    cases l₂ with
    | nil => simpa using heq
    | cons x xs =>
      simp only [List.nil_append, List.cons_append, List.cons.injEq] at heq
      exact absurd (heq.1 ▸ List.mem_cons_self x xs) h₂
  | cons y ys ih =>
    intro l₂ r₁ r₂ h₁ h₂ heq
    cases l₂ with
    | nil =>
      simp only [List.nil_append, List.cons_append, List.cons.injEq] at heq
      exact absurd (heq.1 ▸ List.mem_cons_self y ys) h₁
    | cons x xs =>
      simp only [List.cons_append, List.cons.injEq] at heq
      have h₁2 : c ∉ ys := fun hmem => h₁ (List.mem_cons_of_mem _ hmem)
      have h₂2 : c ∉ xs := fun hmem => h₂ (List.mem_cons_of_mem _ hmem)
      obtain ⟨hl, hr⟩ := ih h₁2 h₂2 heq.2
      exact ⟨by rw [heq.1, hl], hr⟩

lemma cacheKey_data (u t d : String) :
    (cacheKey u t d).data = u.data ++ ':' :: (t.data ++ ':' :: d.data) := by
  show (u ++ ":" ++ t ++ ":" ++ d).data = _
  simp [String.data_append]

/-- Claim C9, counterexample — Key derivation is not injective on all inputs:
the triples `("a", "b:c", "d")` and `("a:b", "c", "d")` are distinct but
produce the same key `"a:b:c:d"`. -/
theorem c9_counterexample :
    cacheKey "a" "b:c" "d" = cacheKey "a:b" "c" "d" ∧
    ¬(("a" : String) = "a:b" ∧ ("b:c" : String) = "c" ∧ ("d" : String) = "d") := by
  decide

/-- Claim C9, amended — The key `url ++ ":" ++ title ++ ":" ++ duration` is a
deterministic pure function of the triple, and on triples whose URL and
title contain no `':'` character (the duration may: `"3:05"`), equal keys
hold exactly for equal triples. -/
theorem c9_key_amended (u₁ t₁ d₁ u₂ t₂ d₂ : String)
    (hu₁ : ':' ∉ u₁.data) (ht₁ : ':' ∉ t₁.data)
    (hu₂ : ':' ∉ u₂.data) (ht₂ : ':' ∉ t₂.data) :
    cacheKey u₁ t₁ d₁ = cacheKey u₂ t₂ d₂ ↔ u₁ = u₂ ∧ t₁ = t₂ ∧ d₁ = d₂ := by
  constructor
  · intro h
    have hdata : (cacheKey u₁ t₁ d₁).data = (cacheKey u₂ t₂ d₂).data := by rw [h]
    rw [cacheKey_data, cacheKey_data] at hdata
    obtain ⟨hu, hrest⟩ := sep_split_inj hu₁ hu₂ hdata
    obtain ⟨ht, hd⟩ := sep_split_inj ht₁ ht₂ hrest
    exact ⟨eq_of_data_eq _ _ hu, eq_of_data_eq _ _ ht, eq_of_data_eq _ _ hd⟩
  · rintro ⟨rfl, rfl, rfl⟩
    rfl

/-- Witness for C9 on a colon-free URL and title with a colon-bearing
duration. -/
theorem c9_key_witness :
    ("u1" : String) = "u1" ∧ ("Song" : String) = "Song" ∧ ("3:25" : String) = "3:25" :=
  (c9_key_amended "u1" "Song" "3:25" "u1" "Song" "3:25"
    (by decide) (by decide) (by decide) (by decide)).mp rfl

/-- Whenever the ellipsis loop terminates with an assignment, the produced
line ends in `"..."` and its measured width fits the budget. -/
lemma truncGo_some (measure : String → α) (maxWidth : α) :
    ∀ (fuel : Nat) (l r : String), truncGo measure maxWidth fuel l = some r →
      (∃ pre, r = pre ++ "...") ∧ measure r ≤ maxWidth := by
  intro fuel
  induction fuel with
  | zero => intro l r h; cases h
  | succ fuel ih =>
    intro l r h
    unfold truncGo at h
    by_cases h1 : measure (l ++ "...") ≤ maxWidth
    · rw [if_pos h1] at h
      cases h
      exact ⟨⟨l, rfl⟩, h1⟩
    · rw [if_neg h1] at h
      by_cases h2 : (fields l).length ≤ 1
      · rw [if_pos h2] at h
        cases h
      · rw [if_neg h2] at h
        exact ih _ r h

/-- Claim C3, counterexample — With width measure = character count and
budget 5, the title `"aa bb cccccc dd ee"` greedily wraps to three lines,
so truncation kicks in; the single word `"cccccc"` does not fit even with
the ellipsis, the loop breaks without assigning, and the output's second
line is `"cccccc"`: it does not end in `"..."` and its measure 6 exceeds
the budget 5 — refuting the claim's "in particular" sentence. -/
theorem c3_counterexample :
    wrapLines (fun s => s.length) 5 "aa bb cccccc dd ee" = ["aa bb", "cccccc", "dd ee"] ∧
    wrapText (fun s => s.length) 5 "aa bb cccccc dd ee" = "aa bb\ncccccc" ∧
    "...".data.isSuffixOf "cccccc".data = false ∧
    ¬("cccccc".length ≤ 5) := by decide

/-- Claim C3, amended — `wrapText` performs greedy word wrap (`wrapLines`):
when at most 2 greedy lines result they are returned joined unchanged; when
more would be needed, the output is exactly the first greedy line plus a
second line that either ends in `"..."` and measures within the budget
(the ellipsis loop succeeded) or is the unmodified second greedy line (the
loop hit a single remaining word that still did not fit — left unfit,
without ellipsis). -/
theorem c3_wrap_amended (measure : String → α) (maxWidth : α)
    (text : String) (hw : fields text ≠ []) :
    ((wrapLines measure maxWidth text).length ≤ 2 →
      wrapText measure maxWidth text = joinWith "\n" (wrapLines measure maxWidth text)) ∧
    (2 < (wrapLines measure maxWidth text).length →
      ∃ l₂, wrapText measure maxWidth text =
          joinWith "\n" [(wrapLines measure maxWidth text).getD 0 "", l₂] ∧
        (((∃ pre, l₂ = pre ++ "...") ∧ measure l₂ ≤ maxWidth) ∨
          l₂ = (wrapLines measure maxWidth text).getD 1 "")) := by
  constructor
  · intro hle
    simp only [wrapText]
    rw [if_neg hw, if_neg (by omega)]
  · intro hgt
    simp only [wrapText]
    rw [if_neg hw, if_pos hgt]
    rcases htr : truncGo measure maxWidth
        ((fields ((wrapLines measure maxWidth text).getD 1 "")).length + 1)
        ((wrapLines measure maxWidth text).getD 1 "") with _ | r
    · exact ⟨(wrapLines measure maxWidth text).getD 1 "", rfl, Or.inr rfl⟩
    · exact ⟨r, rfl, Or.inl (truncGo_some measure maxWidth _ _ r htr)⟩

/-- Witness for C3: a long title whose second line is truncated with an
ellipsis within the budget. -/
theorem c3_wrap_amended_witness :
    ∃ l₂, wrapText (fun s => s.length) 5 "aa bb cc dd ee ff" =
        joinWith "\n" [(wrapLines (fun s => s.length) 5 "aa bb cc dd ee ff").getD 0 "", l₂] ∧
      (((∃ pre, l₂ = pre ++ "...") ∧ l₂.length ≤ 5) ∨
        l₂ = (wrapLines (fun s => s.length) 5 "aa bb cc dd ee ff").getD 1 "") :=
  (c3_wrap_amended (fun s => s.length) 5 "aa bb cc dd ee ff" (by decide)).2 (by decide)

end YukkiThumb
